import Mathlib

/-!
# Verification of `src/services/schedulerService.js` (streamnow)

A shallow embedding of the stream scheduler: the termination registry
(a JS `Map` from stream id to timeout handle), the duration watchdog tick
(`checkStreamDurations`), the schedule poller tick (`checkScheduledStreams`),
arming (`scheduleStreamTermination`), cancellation (`cancelStreamTermination`,
`handleStreamStopped`) and the firing of an armed timeout callback.

JS numbers passed as `durationMinutes` are modelled by `JSVal`, which
distinguishes finite numbers (as rationals), `NaN`, the two infinities and
values whose `typeof` is not `"number"`, because the validation in
`scheduleStreamTermination` branches on exactly those distinctions.

Instants are integers (milliseconds since epoch, `Date#getTime`).  Timeouts
(`setTimeout`) are modelled by a fresh handle drawn from a counter plus a
record of the pending timers; `clearTimeout` drops a handle from that record.
Engine calls (`startStream`/`stopStream`) are modelled as recorded effects;
an outcome parameter says whether a `stopStream` promise resolves or rejects,
mirroring the `try`/`catch` around the timeout callback body.
-/

/-- A JS value passed as `durationMinutes`: a finite number, `NaN`,
`Infinity`, `-Infinity`, or any value with `typeof v !== 'number'`. -/
inductive JSVal where
  | num (x : ℚ)
  | nan
  | posInf
  | negInf
  | nonNumber
deriving DecidableEq

/-- `typeof v === 'number'` — true for finite numbers, `NaN` and both
infinities; false only for non-number values. -/
def typeofIsNumber : JSVal → Bool
  | .nonNumber => false
  | _ => true

/-- `Number.isNaN(v)`. -/
def jsIsNaN : JSVal → Bool
  | .nan => true
  | _ => false

/-- `Math.max(0, v)` on the values reachable past the validation
(`NaN`/non-number never reach this point in the code). -/
def jsMaxZero : JSVal → JSVal
  | .num x => .num (max 0 x)
  | .posInf => .posInf
  | .negInf => .num 0
  | .nan => .nan
  | .nonNumber => .nonNumber

/-- Multiplication of a JS number by a positive integer constant
(`clampedMinutes * 60 * 1000`). -/
def jsMulConst (v : JSVal) (c : ℚ) : JSVal :=
  match v with
  | .num x => .num (x * c)
  | .posInf => .posInf
  | .negInf => .negInf
  | .nan => .nan
  | .nonNumber => .nonNumber

/-- A pending `setTimeout` armed by `scheduleStreamTermination`: the stream id
its callback closes over and the delay it was armed with (in milliseconds). -/
structure Timer where
  streamId : String
  delayMs : JSVal
deriving DecidableEq

/-- The `scheduledTerminations` JS `Map`: stream id to timeout handle,
in insertion order. -/
abbrev TerminationMap := List (String × Nat)

/-- `Map#has`. -/
def mapHas : TerminationMap → String → Bool
  | [], _ => false
  | p :: rest, k => if p.1 = k then true else mapHas rest k

/-- `Map#get` (first — hence, keys being unique, the only — binding). -/
def mapGet : TerminationMap → String → Option Nat
  | [], _ => none
  | p :: rest, k => if p.1 = k then some p.2 else mapGet rest k

/-- `Map#set`: replaces the binding when the key is present, otherwise
appends a new binding. -/
def mapSet (m : TerminationMap) (k : String) (v : Nat) : TerminationMap :=
  if mapHas m k = true then m.map (fun p => if p.1 = k then (k, v) else p)
  else m ++ [(k, v)]

/-- `Map#delete`. -/
def mapDelete (m : TerminationMap) (k : String) : TerminationMap :=
  m.filter (fun p => decide (p.1 ≠ k))

/-- The process-local state of the scheduler module, together with the
observable effect trace (engine calls issued, error lines logged). -/
structure SchedulerState where
  /-- `streamingService` is non-null (set by `init`). -/
  serviceInit : Bool
  /-- the `scheduledTerminations` map. -/
  terminations : TerminationMap
  /-- pending (armed, not yet fired or cleared) timeouts, by handle. -/
  timers : List (Nat × Timer)
  /-- source of fresh timeout handles. -/
  nextTimerId : Nat
  /-- ids passed to `streamingService.stopStream`, in call order. -/
  stopCalls : List String
  /-- ids passed to `streamingService.startStream`, in call order. -/
  startCalls : List String
  /-- number of `console.error` lines emitted. -/
  errors : Nat
deriving DecidableEq

/-- The module state right after `init(streamingService)` succeeded:
service set, registry empty, no pending timers, nothing called yet. -/
def initializedState : SchedulerState :=
  { serviceInit := true
    terminations := []
    timers := []
    nextTimerId := 0
    stopCalls := []
    startCalls := []
    errors := 0 }

/-- `clearTimeout(h)`: removes the pending timer with handle `h`;
`clearTimeout(undefined)` is a no-op. -/
def clearTimeout (timers : List (Nat × Timer)) : Option Nat → List (Nat × Timer)
  | some tid => timers.filter (fun p => decide (p.1 ≠ tid))
  | none => timers

/-- `scheduleStreamTermination(streamId, durationMinutes)`:
rejects (log only) when the service is unset, when
`typeof durationMinutes !== 'number'`, or when `Number.isNaN(durationMinutes)`;
otherwise clears any timeout already registered for the id, arms a fresh
timeout for `Math.max(0, durationMinutes) * 60 * 1000` ms and records it in
the registry. -/
def scheduleStreamTermination (st : SchedulerState) (streamId : String)
    (durationMinutes : JSVal) : SchedulerState :=
  if st.serviceInit = false then { st with errors := st.errors + 1 }
  else if typeofIsNumber durationMinutes = false ∨ jsIsNaN durationMinutes = true then
    { st with errors := st.errors + 1 }
  else
    let timers1 :=
      if mapHas st.terminations streamId = true then
        clearTimeout st.timers (mapGet st.terminations streamId)
      else st.timers
    let clampedMinutes := jsMaxZero durationMinutes
    let durationMs := jsMulConst clampedMinutes 60000
    let timeoutId := st.nextTimerId
    { st with
      timers := timers1 ++ [(timeoutId, ⟨streamId, durationMs⟩)]
      nextTimerId := st.nextTimerId + 1
      terminations := mapSet st.terminations streamId timeoutId }

/-- Outcome of the awaited `stopStream` promise inside the timeout callback:
it either resolves (with `{success: b}` — the result is not inspected there)
or rejects, landing in the `catch` branch. -/
inductive StopOutcome where
  | resolved (success : Bool)
  | thrown
deriving DecidableEq

/-- The timeout callback armed by `scheduleStreamTermination`, fired for
handle `tid` (a timer only fires while still pending).  It calls
`stopStream(streamId)` and, only when that call resolves, deletes the id
from the registry; when it rejects, the `catch` branch logs and the
registry entry survives. -/
def fireTermination (st : SchedulerState) (tid : Nat) (outcome : StopOutcome) :
    SchedulerState :=
  match st.timers.find? (fun p => decide (p.1 = tid)) with
  | none => st
  | some (_, tm) =>
    let st1 := { st with
      timers := st.timers.filter (fun p => decide (p.1 ≠ tid))
      stopCalls := st.stopCalls ++ [tm.streamId] }
    match outcome with
    | .resolved _ => { st1 with terminations := mapDelete st1.terminations tm.streamId }
    | .thrown => { st1 with errors := st1.errors + 1 }

/-- `cancelStreamTermination(streamId)`: when an entry exists, clears its
timeout, deletes the entry and returns `true`; otherwise returns `false`
touching nothing. -/
def cancelStreamTermination (st : SchedulerState) (streamId : String) :
    SchedulerState × Bool :=
  if mapHas st.terminations streamId = true then
    ({ st with
       timers := clearTimeout st.timers (mapGet st.terminations streamId)
       terminations := mapDelete st.terminations streamId }, true)
  else (st, false)

/-- `handleStreamStopped(streamId)`: alias of `cancelStreamTermination`. -/
def handleStreamStopped (st : SchedulerState) (streamId : String) :
    SchedulerState × Bool :=
  cancelStreamTermination st streamId

/-- A broadcast row as the scheduler reads it from the repository. -/
structure StreamRec where
  id : String
  status : String
  /-- `scheduled_time`, ms since epoch; `none` when NULL. -/
  scheduled_time : Option ℤ
  /-- `start_time`, ms since epoch; `none` when NULL (falsy). -/
  start_time : Option ℤ
  /-- `duration` in minutes; `none` when NULL/undefined.  In the JS truthiness
  test `stream.duration && …` the number `0` is falsy, exactly like absence. -/
  duration : Option ℤ
deriving DecidableEq

/-- One iteration of the `checkStreamDurations` loop body for stream `s`,
with `now` the instant sampled inside that iteration (`new Date()`).
Skips the stream unless `stream.duration` is truthy (present and non-zero),
`stream.start_time` is truthy (present) and the registry has no entry for it;
then stops immediately if `start_time + duration*60000 <= now`, else arms
`scheduleStreamTermination(id, (shouldEndAt - now) / 60000)`. -/
def watchdogStep (st : SchedulerState) (now : ℤ) (s : StreamRec) : SchedulerState :=
  match s.duration, s.start_time with
  | some d, some t0 =>
    if d ≠ 0 ∧ mapHas st.terminations s.id = false then
      let durationMs := d * 60 * 1000
      let shouldEndAt := t0 + durationMs
      if shouldEndAt ≤ now then { st with stopCalls := st.stopCalls ++ [s.id] }
      else
        let timeUntilEnd := shouldEndAt - now
        scheduleStreamTermination st s.id (.num ((timeUntilEnd : ℚ) / 60000))
    else st
  | _, _ => st

/-- One `checkStreamDurations` tick over the rows returned by
`Stream.findAll(null, 'live')`, each row paired with the `now` sampled while
it is processed (the code reads `new Date()` afresh in every iteration). -/
def checkStreamDurations (st : SchedulerState) (liveStreams : List (StreamRec × ℤ)) :
    SchedulerState :=
  if st.serviceInit = false then { st with errors := st.errors + 1 }
  else liveStreams.foldl (fun acc p => watchdogStep acc p.2 p.1) st

/-- A sequence of watchdog ticks. -/
def runWatchdogTicks (st : SchedulerState) (ticks : List (List (StreamRec × ℤ))) :
    SchedulerState :=
  ticks.foldl checkStreamDurations st

/-- Modelled from the spec: the repository method `Stream.findScheduledInRange`
(the `Stream` model file is not among the sources; only this caller is) —
broadcasts with `status = scheduled` and `scheduled_time` in the inclusive
range `[tFrom, tTo]`. -/
def findScheduledInRange (all : List StreamRec) (tFrom tTo : ℤ) : List StreamRec :=
  all.filter (fun s =>
    decide (s.status = "scheduled") &&
      match s.scheduled_time with
      | some t => decide (tFrom ≤ t) && decide (t ≤ tTo)
      | none => false)

/-- `SCHEDULE_LOOKAHEAD_SECONDS`. -/
def SCHEDULE_LOOKAHEAD_SECONDS : ℤ := 60

/-- `lookAheadTime = new Date(now.getTime() + SCHEDULE_LOOKAHEAD_SECONDS * 1000)`. -/
def lookAheadInstant (now : ℤ) : ℤ :=
  now + SCHEDULE_LOOKAHEAD_SECONDS * 1000

/-- One iteration of the `checkScheduledStreams` loop body: calls
`startStream(stream.id)`; on `{success: false}` logs an error; either way the
loop moves on to the next stream. -/
def pollerStep (engine : String → Bool) (st : SchedulerState) (s : StreamRec) :
    SchedulerState :=
  let st1 := { st with startCalls := st.startCalls ++ [s.id] }
  if engine s.id then st1 else { st1 with errors := st1.errors + 1 }

/-- One `checkScheduledStreams` tick: queries
`Stream.findScheduledInRange(now, lookAheadTime)` over the repository rows
`allStreams` and starts every returned broadcast in order; `engine id` is the
`success` field of the `startStream(id)` result. -/
def checkScheduledStreams (st : SchedulerState) (now : ℤ)
    (allStreams : List StreamRec) (engine : String → Bool) : SchedulerState :=
  if st.serviceInit = false then { st with errors := st.errors + 1 }
  else
    let streams := findScheduledInRange allStreams now (lookAheadInstant now)
    streams.foldl (pollerStep engine) st

/-- Well-formedness of the registry representation: a JS `Map` never holds
two bindings for one key. -/
def WFMap (m : TerminationMap) : Prop :=
  (m.map Prod.fst).Nodup


/-! ## Lemmas about the registry map operations -/

theorem mapHas_append (m1 m2 : TerminationMap) (k : String) :
    mapHas (m1 ++ m2) k = (mapHas m1 k || mapHas m2 k) := by
  induction m1 with
  | nil => simp [mapHas]
  | cons p rest ih =>
    by_cases hp : p.1 = k <;> simp [mapHas, hp, ih]

theorem countKey_eq_zero_of_not_has (m : TerminationMap) (k : String)
    (h : mapHas m k = false) :
    (m.filter (fun p => decide (p.1 = k))).length = 0 := by
  induction m with
  | nil => simp
  | cons p rest ih =>
    by_cases hp : p.1 = k
    · simp [mapHas, hp] at h
    · simp only [mapHas, hp, if_false] at h
      simp [List.filter_cons, hp, ih h]

theorem map_replace_of_not_has (m : TerminationMap) (k : String) (v : Nat)
    (h : mapHas m k = false) :
    m.map (fun p => if p.1 = k then (k, v) else p) = m := by
  induction m with
  | nil => rfl
  | cons p rest ih =>
    by_cases hp : p.1 = k
    · simp [mapHas, hp] at h
    · simp only [mapHas, hp, if_false] at h
      simp [hp, ih h]

theorem mapGet_set_self (m : TerminationMap) (k : String) (v : Nat) :
    mapGet (mapSet m k v) k = some v := by
  unfold mapSet
  by_cases h : mapHas m k = true
  · simp only [h, if_pos rfl]
    induction m with
    | nil => simp [mapHas] at h
    | cons p rest ih =>
      by_cases hp : p.1 = k
      · simp [mapGet, hp]
      · simp only [mapHas, hp, if_false] at h
        simpa [mapGet, hp] using ih h
  · simp only [Bool.not_eq_true] at h
    simp only [h, Bool.false_eq_true, if_false]
    induction m with
    | nil => simp [mapGet]
    | cons p rest ih =>
      by_cases hp : p.1 = k
      · simp [mapHas, hp] at h
      · simp only [mapHas, hp, if_false] at h
        simpa [mapGet, hp] using ih h

theorem mapHas_set_self (m : TerminationMap) (k : String) (v : Nat) :
    mapHas (mapSet m k v) k = true := by
  unfold mapSet
  by_cases h : mapHas m k = true
  · simp only [h, if_pos rfl]
    induction m with
    | nil => simp [mapHas] at h
    | cons p rest ih =>
      by_cases hp : p.1 = k
      · simp [mapHas, hp]
      · simp only [mapHas, hp, if_false] at h
        simpa [mapHas, hp] using ih h
  · simp only [Bool.not_eq_true] at h
    simp [h, mapHas_append, mapHas]

theorem mapHas_set_other (m : TerminationMap) (k : String) (v : Nat) (q : String)
    (hne : q ≠ k) :
    mapHas (mapSet m k v) q = mapHas m q := by
  have hkq : ¬ k = q := fun e => hne e.symm
  unfold mapSet
  by_cases h : mapHas m k = true
  · simp only [h, if_pos rfl]
    induction m with
    | nil => rfl
    | cons p rest ih =>
      by_cases hp : p.1 = k
      · have hpq : ¬ p.1 = q := by rw [hp]; exact hkq
        by_cases hr : mapHas rest k = true
        · simpa [mapHas, hp, hpq, hkq] using ih hr
        · simp only [Bool.not_eq_true] at hr
          simp [mapHas, hp, hpq, hkq, map_replace_of_not_has rest k v hr]
      · simp only [mapHas, hp, if_false] at h
        by_cases hpq : p.1 = q
        · simp [mapHas, hp, hpq, hkq, hne]
        · simpa [mapHas, hp, hpq] using ih h
  · simp only [Bool.not_eq_true] at h
    simp [h, mapHas_append, mapHas, hkq]

theorem mapHas_delete_self (m : TerminationMap) (k : String) :
    mapHas (mapDelete m k) k = false := by
  induction m with
  | nil => rfl
  | cons p rest ih =>
    by_cases hp : p.1 = k
    · simpa [mapDelete, List.filter_cons, hp] using ih
    · simpa [mapDelete, List.filter_cons, hp, mapHas] using ih

theorem mapHas_delete_other (m : TerminationMap) (k : String) (q : String)
    (hne : q ≠ k) :
    mapHas (mapDelete m k) q = mapHas m q := by
  have hkq : ¬ k = q := fun e => hne e.symm
  induction m with
  | nil => rfl
  | cons p rest ih =>
    by_cases hp : p.1 = k
    · have hpq : ¬ p.1 = q := by rw [hp]; exact hkq
      simpa [mapDelete, List.filter_cons, hp, mapHas, hpq, hkq] using ih
    · by_cases hpq : p.1 = q
      · simp [mapDelete, List.filter_cons, hp, mapHas, hpq, hkq, hne]
      · simpa [mapDelete, List.filter_cons, hp, mapHas, hpq] using ih

theorem mapHas_eq_false_iff (m : TerminationMap) (k : String) :
    mapHas m k = false ↔ k ∉ m.map Prod.fst := by
  induction m with
  | nil => simp [mapHas]
  | cons p rest ih =>
    by_cases hp : p.1 = k
    · simp [mapHas, hp]
    · simp only [mapHas, hp, if_false, List.map_cons, List.mem_cons, not_or]
      rw [ih]
      constructor
      · intro h; exact ⟨fun e => hp e.symm, h⟩
      · intro h; exact h.2

theorem mapSet_keys (m : TerminationMap) (k : String) (v : Nat)
    (h : mapHas m k = true) :
    (m.map (fun p => if p.1 = k then (k, v) else p)).map Prod.fst
      = m.map Prod.fst := by
  induction m with
  | nil => rfl
  | cons p rest ih =>
    by_cases hp : p.1 = k
    · by_cases hr : mapHas rest k = true
      · simp [hp, ih hr]
      · simp only [Bool.not_eq_true] at hr
        simp [hp, map_replace_of_not_has rest k v hr]
    · simp only [mapHas, hp, if_false] at h
      simp [hp, ih h]

theorem WFMap_mapSet (m : TerminationMap) (k : String) (v : Nat)
    (h : WFMap m) : WFMap (mapSet m k v) := by
  unfold WFMap at h ⊢
  unfold mapSet
  by_cases hk : mapHas m k = true
  · rw [if_pos hk, mapSet_keys m k v hk]; exact h
  · simp only [Bool.not_eq_true] at hk
    rw [if_neg (by simp [hk]), List.map_append, List.nodup_append]
    have hk2 : k ∉ m.map Prod.fst := (mapHas_eq_false_iff m k).mp hk
    refine ⟨h, List.nodup_singleton k, ?_⟩
    intro a ha hb
    simp only [List.map_cons, List.map_nil, List.mem_singleton] at hb
    exact hk2 (hb ▸ ha)

theorem countKey_replace (k : String) (v : Nat) (m : TerminationMap) :
    (m.map Prod.fst).Nodup → mapHas m k = true →
    ((m.map (fun p => if p.1 = k then (k, v) else p)).filter
        (fun p => decide (p.1 = k))).length = 1 := by
  induction m with
  | nil => intro _ hk; simp [mapHas] at hk
  | cons p rest ih =>
    intro h hk
    rw [List.map_cons] at h
    by_cases hp : p.1 = k
    · have hrest : mapHas rest k = false := by
        rw [mapHas_eq_false_iff]
        intro hmem
        exact (List.nodup_cons.mp h).1 (by rw [hp]; exact hmem)
      rw [List.map_cons, map_replace_of_not_has rest k v hrest]
      simp [List.filter_cons, hp, countKey_eq_zero_of_not_has rest k hrest]
    · simp only [mapHas, hp, if_false] at hk
      have h2 := (List.nodup_cons.mp h).2
      rw [List.map_cons]
      simp only [List.filter_cons, hp, if_false, decide_eq_true_eq]
      exact ih h2 hk

theorem countKey_mapSet_self (m : TerminationMap) (k : String) (v : Nat)
    (h : WFMap m) :
    ((mapSet m k v).filter (fun p => decide (p.1 = k))).length = 1 := by
  unfold mapSet
  by_cases hk : mapHas m k = true
  · rw [if_pos hk]
    exact countKey_replace k v m h hk
  · simp only [Bool.not_eq_true] at hk
    rw [if_neg (by simp [hk]), List.filter_append]
    simp [countKey_eq_zero_of_not_has m k hk]

/-! ## Lemmas about the scheduler operations -/

theorem scheduleStreamTermination_num (st : SchedulerState) (sid : String) (d : ℚ)
    (hinit : st.serviceInit = true) :
    scheduleStreamTermination st sid (.num d) =
      { st with
        timers := (if mapHas st.terminations sid = true then
              clearTimeout st.timers (mapGet st.terminations sid)
            else st.timers)
          ++ [(st.nextTimerId, ⟨sid, .num (max 0 d * 60000)⟩)]
        nextTimerId := st.nextTimerId + 1
        terminations := mapSet st.terminations sid st.nextTimerId } := by
  simp [scheduleStreamTermination, hinit, typeofIsNumber, jsIsNaN, jsMaxZero, jsMulConst]

theorem scheduleStreamTermination_stopCalls (st : SchedulerState) (sid : String)
    (v : JSVal) :
    (scheduleStreamTermination st sid v).stopCalls = st.stopCalls := by
  unfold scheduleStreamTermination
  split
  · rfl
  split
  · rfl
  · rfl

theorem scheduleStreamTermination_mapHas_other (st : SchedulerState) (sid : String)
    (v : JSVal) (q : String) (hne : q ≠ sid) :
    mapHas (scheduleStreamTermination st sid v).terminations q
      = mapHas st.terminations q := by
  unfold scheduleStreamTermination
  split
  · rfl
  split
  · rfl
  · exact mapHas_set_other st.terminations sid st.nextTimerId q hne

theorem scheduleStreamTermination_valid (st : SchedulerState) (sid : String)
    (v : JSVal) (hinit : st.serviceInit = true)
    (hv : typeofIsNumber v = true) (hn : jsIsNaN v = false) :
    scheduleStreamTermination st sid v =
      { st with
        timers := (if mapHas st.terminations sid = true then
              clearTimeout st.timers (mapGet st.terminations sid)
            else st.timers)
          ++ [(st.nextTimerId, ⟨sid, jsMulConst (jsMaxZero v) 60000⟩)]
        nextTimerId := st.nextTimerId + 1
        terminations := mapSet st.terminations sid st.nextTimerId } := by
  simp [scheduleStreamTermination, hinit, hv, hn]

theorem pollerStep_foldl_startCalls (engine : String → Bool)
    (streams : List StreamRec) :
    ∀ st : SchedulerState,
      (streams.foldl (pollerStep engine) st).startCalls
        = st.startCalls ++ streams.map (fun s => s.id) := by
  induction streams with
  | nil => intro st; simp
  | cons s rest ih =>
    intro st
    rw [List.foldl_cons, ih]
    unfold pollerStep
    by_cases h : engine s.id = true
    · simp [h]
    · simp only [Bool.not_eq_true] at h
      simp [h]

theorem watchdogStep_eq_skip (st : SchedulerState) (now : ℤ) (s : StreamRec)
    (h : s.duration = none ∨ s.start_time = none) :
    watchdogStep st now s = st := by
  unfold watchdogStep
  rcases h with h | h
  · rw [h]
  · rw [h]
    cases hd : s.duration <;> rfl

theorem watchdogStep_eq_some (st : SchedulerState) (now : ℤ) (s : StreamRec)
    (d t0 : ℤ) (hd : s.duration = some d) (ht : s.start_time = some t0) :
    watchdogStep st now s =
      if d ≠ 0 ∧ mapHas st.terminations s.id = false then
        if t0 + d * 60 * 1000 ≤ now then
          { st with stopCalls := st.stopCalls ++ [s.id] }
        else
          scheduleStreamTermination st s.id
            (.num (((t0 + d * 60 * 1000 - now : ℤ) : ℚ) / 60000))
      else st := by
  unfold watchdogStep
  rw [hd, ht]

theorem watchdogStep_other_preserves (st : SchedulerState) (now : ℤ)
    (s : StreamRec) (q : String) (hq : s.id = q → s.duration = none) :
    (mapHas (watchdogStep st now s).terminations q = mapHas st.terminations q) ∧
    (q ∉ st.stopCalls → q ∉ (watchdogStep st now s).stopCalls) := by
  by_cases hid : s.id = q
  · rw [watchdogStep_eq_skip st now s (Or.inl (hq hid))]
    exact ⟨rfl, fun h => h⟩
  · cases hd : s.duration with
    | none =>
      rw [watchdogStep_eq_skip st now s (Or.inl hd)]
      exact ⟨rfl, fun h => h⟩
    | some d =>
      cases hst : s.start_time with
      | none =>
        rw [watchdogStep_eq_skip st now s (Or.inr hst)]
        exact ⟨rfl, fun h => h⟩
      | some t0 =>
        rw [watchdogStep_eq_some st now s d t0 hd hst]
        by_cases hcond : d ≠ 0 ∧ mapHas st.terminations s.id = false
        · rw [if_pos hcond]
          by_cases hle : t0 + d * 60 * 1000 ≤ now
          · rw [if_pos hle]
            refine ⟨rfl, ?_⟩
            intro hq2 hmem
            rcases List.mem_append.mp hmem with h | h
            · exact hq2 h
            · exact hid ((List.mem_singleton.mp h).symm)
          · rw [if_neg hle]
            refine ⟨scheduleStreamTermination_mapHas_other st s.id _ q
              (fun e => hid e.symm), ?_⟩
            intro hq2
            rw [scheduleStreamTermination_stopCalls]
            exact hq2
        · rw [if_neg hcond]
          exact ⟨rfl, fun h => h⟩

theorem watchdog_foldl_preserves (q : String) (tick : List (StreamRec × ℤ)) :
    ∀ st : SchedulerState,
      (∀ p ∈ tick, (p.1).id = q → (p.1).duration = none) →
      (mapHas (tick.foldl (fun acc p => watchdogStep acc p.2 p.1) st).terminations q
          = mapHas st.terminations q) ∧
      (q ∉ st.stopCalls →
        q ∉ (tick.foldl (fun acc p => watchdogStep acc p.2 p.1) st).stopCalls) := by
  induction tick with
  | nil => intro st _; exact ⟨rfl, fun h => h⟩
  | cons p rest ih =>
    intro st hq
    rw [List.foldl_cons]
    have hstep := watchdogStep_other_preserves st p.2 p.1 q
      (hq p (List.mem_cons_self p rest))
    have hrest := ih (watchdogStep st p.2 p.1)
      (fun r hr => hq r (List.mem_cons_of_mem p hr))
    exact ⟨hrest.1.trans hstep.1, fun h => hrest.2 (hstep.2 h)⟩

theorem checkStreamDurations_preserves_other (st : SchedulerState)
    (tick : List (StreamRec × ℤ)) (q : String)
    (hq : ∀ p ∈ tick, (p.1).id = q → (p.1).duration = none) :
    (mapHas (checkStreamDurations st tick).terminations q
        = mapHas st.terminations q) ∧
    (q ∉ st.stopCalls → q ∉ (checkStreamDurations st tick).stopCalls) := by
  unfold checkStreamDurations
  by_cases hini : st.serviceInit = false
  · rw [if_pos hini]; exact ⟨rfl, fun h => h⟩
  · rw [if_neg hini]; exact watchdog_foldl_preserves q tick st hq

theorem runWatchdog_preserves_other (q : String)
    (ticks : List (List (StreamRec × ℤ))) :
    ∀ st : SchedulerState,
      (∀ tick ∈ ticks, ∀ p ∈ tick, (p.1).id = q → (p.1).duration = none) →
      (mapHas (runWatchdogTicks st ticks).terminations q
          = mapHas st.terminations q) ∧
      (q ∉ st.stopCalls → q ∉ (runWatchdogTicks st ticks).stopCalls) := by
  induction ticks with
  | nil => intro st _; exact ⟨rfl, fun h => h⟩
  | cons tick rest ih =>
    intro st hq
    unfold runWatchdogTicks
    rw [List.foldl_cons]
    have hstep := checkStreamDurations_preserves_other st tick q
      (hq tick (List.mem_cons_self tick rest))
    have hrest := ih (checkStreamDurations st tick)
      (fun r hr => hq r (List.mem_cons_of_mem tick hr))
    unfold runWatchdogTicks at hrest
    exact ⟨hrest.1.trans hstep.1, fun h => hrest.2 (hstep.2 h)⟩

/-! ## Claim theorems -/

/-- C7: for every finite numeric `delayMinutes` that is negative or zero,
`scheduleStreamTermination` clamps the delay to zero and arms an immediate
zero-delay termination instead of rejecting the call: a registry entry for the
id is recorded, bound to a fresh pending timer armed with delay 0 ms, and no
error is logged. -/
theorem C7_clamp_nonpositive (st : SchedulerState) (sid : String) (d : ℚ)
    (hinit : st.serviceInit = true) (hd : d ≤ 0) :
    mapHas (scheduleStreamTermination st sid (.num d)).terminations sid = true ∧
    mapGet (scheduleStreamTermination st sid (.num d)).terminations sid
      = some st.nextTimerId ∧
    (st.nextTimerId, ⟨sid, .num 0⟩)
      ∈ (scheduleStreamTermination st sid (.num d)).timers ∧
    (scheduleStreamTermination st sid (.num d)).errors = st.errors := by
  have hmax : max 0 d = 0 := max_eq_left hd
  rw [scheduleStreamTermination_num st sid d hinit]
  refine ⟨mapHas_set_self _ _ _, mapGet_set_self _ _ _, ?_, rfl⟩
  simp [hmax]

theorem C7_clamp_nonpositive_witness :
    initializedState.serviceInit = true ∧ ((-2 : ℚ) ≤ 0) ∧
    (0, (⟨"a", .num 0⟩ : Timer))
      ∈ (scheduleStreamTermination initializedState "a" (.num (-2))).timers :=
  ⟨rfl, by norm_num,
    (C7_clamp_nonpositive initializedState "a" (-2) rfl (by norm_num)).2.2.1⟩

/-- C8: `cancelStreamTermination` — and its alias `handleStreamStopped` —
returns false and changes nothing at all when the id has no registry entry;
when it has one, it cancels the pending delayed action, removes the entry and
returns true, touching no other state. -/
theorem C8_cancel_semantics (st : SchedulerState) (sid : String) :
    handleStreamStopped st sid = cancelStreamTermination st sid ∧
    (mapHas st.terminations sid = false →
      cancelStreamTermination st sid = (st, false)) ∧
    (mapHas st.terminations sid = true →
      (cancelStreamTermination st sid).2 = true ∧
      mapHas (cancelStreamTermination st sid).1.terminations sid = false ∧
      (∀ tid, mapGet st.terminations sid = some tid →
        ∀ tm : Timer, (tid, tm) ∉ (cancelStreamTermination st sid).1.timers) ∧
      (cancelStreamTermination st sid).1.stopCalls = st.stopCalls ∧
      (cancelStreamTermination st sid).1.startCalls = st.startCalls ∧
      (cancelStreamTermination st sid).1.errors = st.errors ∧
      (cancelStreamTermination st sid).1.serviceInit = st.serviceInit ∧
      (cancelStreamTermination st sid).1.nextTimerId = st.nextTimerId) := by
  refine ⟨rfl, ?_, ?_⟩
  · intro h
    unfold cancelStreamTermination
    rw [if_neg (by simp [h])]
  · intro h
    unfold cancelStreamTermination
    rw [if_pos h]
    refine ⟨rfl, mapHas_delete_self _ _, ?_, rfl, rfl, rfl, rfl, rfl⟩
    intro tid htid tm hmem
    have hmem2 : (tid, tm) ∈ clearTimeout st.timers (mapGet st.terminations sid) :=
      hmem
    rw [htid] at hmem2
    simp [clearTimeout, List.mem_filter] at hmem2

theorem C8_cancel_semantics_witness :
    (mapHas initializedState.terminations "b" = false) ∧
    (cancelStreamTermination initializedState "b" = (initializedState, false)) ∧
    (mapHas (scheduleStreamTermination initializedState "a"
        (.num 5)).terminations "a" = true) ∧
    ((cancelStreamTermination (scheduleStreamTermination initializedState "a"
        (.num 5)) "a").2 = true) :=
  ⟨rfl, (C8_cancel_semantics initializedState "b").2.1 rfl,
    by decide,
    ((C8_cancel_semantics (scheduleStreamTermination initializedState "a" (.num 5))
        "a").2.2 (by decide)).1⟩

/-- C10: a live broadcast whose `duration` is exactly 0 — or whose
`start_time` is absent — is skipped by the Watchdog loop body entirely:
no stop call and no arming, on any tick; duration 0 is falsy in the JS guard,
treated exactly like an absent duration even though the computed expiry
`start_time + 0` minutes would already be in the past. -/
theorem C10_zero_duration_skipped (st : SchedulerState) (now : ℤ) (s : StreamRec)
    (h : s.duration = some 0 ∨ s.start_time = none) :
    watchdogStep st now s = st := by
  rcases h with h | h
  · cases hst : s.start_time with
    | none => exact watchdogStep_eq_skip st now s (Or.inr hst)
    | some t0 =>
      rw [watchdogStep_eq_some st now s 0 t0 h hst]
      simp
  · exact watchdogStep_eq_skip st now s (Or.inr h)

theorem C10_zero_duration_skipped_witness :
    watchdogStep initializedState 600000000
        ⟨"a", "live", none, some 0, some 0⟩ = initializedState ∧
    watchdogStep initializedState 600000000
        ⟨"b", "live", none, none, some 5⟩ = initializedState :=
  ⟨C10_zero_duration_skipped initializedState 600000000 _ (Or.inl rfl),
    C10_zero_duration_skipped initializedState 600000000 _ (Or.inr rfl)⟩

/-- C4 as stated is false on the code: `Infinity` has `typeof 'number'` and is
not `NaN`, so it passes the validation — arming stream a with `Infinity` in a
fresh initialized state records a registry entry and a pending timer with
infinite delay instead of being a no-op. -/
theorem C4_nonfinite_counterexample :
    mapHas (scheduleStreamTermination initializedState "a" .posInf).terminations
        "a" = true ∧
    (scheduleStreamTermination initializedState "a" .posInf).timers
      = [(0, ⟨"a", .posInf⟩)] := by
  constructor <;> rfl

/-- C4 amended: `scheduleStreamTermination` is a no-op apart from one error
log for `NaN` and for non-number values — but the infinities pass the
validation: `Infinity` arms a timer with infinite delay and `-Infinity` is
clamped to a zero-delay timer, each recording a registry entry. -/
theorem C4_nonfinite_amended (st : SchedulerState) (sid : String) (v : JSVal)
    (hinit : st.serviceInit = true) :
    ((v = .nan ∨ v = .nonNumber) →
      scheduleStreamTermination st sid v = { st with errors := st.errors + 1 }) ∧
    (mapHas (scheduleStreamTermination st sid .posInf).terminations sid = true ∧
      (st.nextTimerId, ⟨sid, .posInf⟩)
        ∈ (scheduleStreamTermination st sid .posInf).timers) ∧
    (mapHas (scheduleStreamTermination st sid .negInf).terminations sid = true ∧
      (st.nextTimerId, ⟨sid, .num 0⟩)
        ∈ (scheduleStreamTermination st sid .negInf).timers) := by
  refine ⟨?_, ?_, ?_⟩
  · rintro (rfl | rfl) <;> simp [scheduleStreamTermination, hinit, typeofIsNumber, jsIsNaN]
  · rw [scheduleStreamTermination_valid st sid .posInf hinit rfl rfl]
    exact ⟨mapHas_set_self _ _ _, by simp [jsMaxZero, jsMulConst]⟩
  · rw [scheduleStreamTermination_valid st sid .negInf hinit rfl rfl]
    refine ⟨mapHas_set_self _ _ _, ?_⟩
    have : jsMulConst (jsMaxZero .negInf) 60000 = .num 0 := by
      simp [jsMaxZero, jsMulConst]
    rw [this]
    simp

theorem C4_nonfinite_amended_witness :
    initializedState.serviceInit = true ∧
    scheduleStreamTermination initializedState "x" .nan
      = { initializedState with errors := 1 } ∧
    mapHas (scheduleStreamTermination initializedState "x" .posInf).terminations
        "x" = true :=
  ⟨rfl, (C4_nonfinite_amended initializedState "x" .nan rfl).1 (Or.inl rfl),
    (C4_nonfinite_amended initializedState "x" .nan rfl).2.1.1⟩

/-- C2: arming the same broadcast id twice leaves exactly one registry entry
for it — the old delayed action is cancelled and the surviving entry is bound
to the second call's fresh timer, armed with the second call's (clamped)
delay: replace, not append. -/
theorem C2_rearm_replaces (st : SchedulerState) (sid : String) (d1 d2 : ℚ)
    (hinit : st.serviceInit = true) (hwf : WFMap st.terminations) :
    (((scheduleStreamTermination (scheduleStreamTermination st sid (.num d1)) sid
          (.num d2)).terminations.filter (fun p => decide (p.1 = sid))).length
        = 1) ∧
    mapGet (scheduleStreamTermination (scheduleStreamTermination st sid (.num d1))
        sid (.num d2)).terminations sid = some (st.nextTimerId + 1) ∧
    (st.nextTimerId + 1, ⟨sid, .num (max 0 d2 * 60000)⟩)
      ∈ (scheduleStreamTermination (scheduleStreamTermination st sid (.num d1))
          sid (.num d2)).timers ∧
    (∀ tm : Timer, (st.nextTimerId, tm)
      ∉ (scheduleStreamTermination (scheduleStreamTermination st sid (.num d1))
          sid (.num d2)).timers) := by
  have h1 := scheduleStreamTermination_num st sid d1 hinit
  have hinit1 : (scheduleStreamTermination st sid (.num d1)).serviceInit = true := by
    rw [h1]; exact hinit
  have h2 := scheduleStreamTermination_num
    (scheduleStreamTermination st sid (.num d1)) sid d2 hinit1
  rw [h2, h1]
  have hhas1 : mapHas (mapSet st.terminations sid st.nextTimerId) sid = true :=
    mapHas_set_self _ _ _
  have hget1 : mapGet (mapSet st.terminations sid st.nextTimerId) sid
      = some st.nextTimerId := mapGet_set_self _ _ _
  refine ⟨?_, ?_, ?_, ?_⟩
  · simpa using countKey_mapSet_self (mapSet st.terminations sid st.nextTimerId)
      sid (st.nextTimerId + 1) (WFMap_mapSet _ _ _ hwf)
  · simpa using mapGet_set_self (mapSet st.terminations sid st.nextTimerId) sid
      (st.nextTimerId + 1)
  · simp [hhas1]
  · intro tm hmem
    simp only [hhas1, if_pos rfl, hget1] at hmem
    simp [clearTimeout, List.mem_filter, List.mem_append] at hmem

theorem C2_rearm_replaces_witness :
    initializedState.serviceInit = true ∧ WFMap initializedState.terminations ∧
    (((scheduleStreamTermination (scheduleStreamTermination initializedState "a"
          (.num 3)) "a" (.num 7)).terminations.filter
        (fun p => decide (p.1 = "a"))).length = 1) :=
  ⟨rfl, List.nodup_nil,
    (C2_rearm_replaces initializedState "a" 3 7 rfl List.nodup_nil).1⟩

/-- C3: on a Watchdog iteration for a live broadcast with a (non-zero)
duration, a start time and no pending registry entry, the expiry is
`start_time + duration` minutes: when it is at or before `now` the engine stop
is called immediately and nothing is armed; otherwise
`scheduleStreamTermination` is called with delay `(expiry - now)` converted
from milliseconds to minutes. -/
theorem C3_watchdog_expiry (st : SchedulerState) (now : ℤ) (s : StreamRec)
    (d t0 : ℤ) (hd : s.duration = some d) (hd0 : d ≠ 0)
    (ht : s.start_time = some t0)
    (hhas : mapHas st.terminations s.id = false) :
    (t0 + d * 60 * 1000 ≤ now →
      watchdogStep st now s = { st with stopCalls := st.stopCalls ++ [s.id] }) ∧
    (now < t0 + d * 60 * 1000 →
      watchdogStep st now s =
        scheduleStreamTermination st s.id
          (.num (((t0 + d * 60 * 1000 - now : ℤ) : ℚ) / 60000))) := by
  rw [watchdogStep_eq_some st now s d t0 hd ht, if_pos ⟨hd0, hhas⟩]
  constructor
  · intro hle; rw [if_pos hle]
  · intro hlt; rw [if_neg (not_le.mpr hlt)]

theorem C3_watchdog_expiry_witness :
    ((0 : ℤ) + 10 * 60 * 1000 ≤ 600000000) ∧
    watchdogStep initializedState 600000000 ⟨"a", "live", none, some 0, some 10⟩
      = { initializedState with stopCalls := ["a"] } :=
  ⟨by decide, (C3_watchdog_expiry initializedState 600000000
      ⟨"a", "live", none, some 0, some 10⟩ 10 0 rfl (by decide) rfl rfl).1
    (by decide)⟩

theorem fireTermination_eq (st : SchedulerState) (tid : Nat) (tm : Timer)
    (outcome : StopOutcome)
    (hfind : st.timers.find? (fun p => decide (p.1 = tid)) = some (tid, tm)) :
    fireTermination st tid outcome =
      match outcome with
      | .resolved _ =>
        { st with
          timers := st.timers.filter (fun p => decide (p.1 ≠ tid))
          stopCalls := st.stopCalls ++ [tm.streamId]
          terminations := mapDelete st.terminations tm.streamId }
      | .thrown =>
        { st with
          timers := st.timers.filter (fun p => decide (p.1 ≠ tid))
          stopCalls := st.stopCalls ++ [tm.streamId]
          errors := st.errors + 1 } := by
  cases outcome with
  | resolved b => unfold fireTermination; rw [hfind]
  | thrown => unfold fireTermination; rw [hfind]

/-- C1 as stated is false on the code: the `delete` sits inside the `try`
before the `catch`, so when the armed callback fires and the stop call throws,
the registry entry survives — in a fresh state, arming stream a and firing its
timer with a rejecting stop leaves the stop call issued but the entry still
registered, and later Watchdog ticks will keep skipping the id. -/
theorem C1_fire_removal_counterexample :
    "a" ∈ (fireTermination (scheduleStreamTermination initializedState "a"
        (.num 5)) 0 .thrown).stopCalls ∧
    mapHas (fireTermination (scheduleStreamTermination initializedState "a"
        (.num 5)) 0 .thrown).terminations "a" = true := by
  constructor <;> decide

/-- C1 amended: when an armed delayed action fires it invokes the engine stop
for its id, and the registry entry is then removed whenever the stop call
resolves — with a success or a failure result alike; when the stop call
throws, only an error is logged and the entry remains in the registry. -/
theorem C1_fire_stop_and_removal (st : SchedulerState) (tid : Nat) (tm : Timer)
    (hfind : st.timers.find? (fun p => decide (p.1 = tid)) = some (tid, tm)) :
    (∀ b : Bool,
      (fireTermination st tid (.resolved b)).stopCalls
          = st.stopCalls ++ [tm.streamId] ∧
      mapHas (fireTermination st tid (.resolved b)).terminations tm.streamId
          = false) ∧
    ((fireTermination st tid .thrown).stopCalls
        = st.stopCalls ++ [tm.streamId] ∧
      (fireTermination st tid .thrown).terminations = st.terminations) := by
  refine ⟨fun b => ?_, ?_⟩
  · rw [fireTermination_eq st tid tm (.resolved b) hfind]
    exact ⟨rfl, mapHas_delete_self _ _⟩
  · rw [fireTermination_eq st tid tm .thrown hfind]
    exact ⟨rfl, rfl⟩

theorem C1_fire_stop_and_removal_witness :
    ((scheduleStreamTermination initializedState "a" (.num 5)).timers.find?
        (fun p => decide (p.1 = 0))
      = some (0, ⟨"a", jsMulConst (jsMaxZero (.num 5)) 60000⟩)) ∧
    mapHas (fireTermination (scheduleStreamTermination initializedState "a"
        (.num 5)) 0 (.resolved true)).terminations "a" = false :=
  ⟨rfl,
    ((C1_fire_stop_and_removal
        (scheduleStreamTermination initializedState "a" (.num 5)) 0
        ⟨"a", jsMulConst (jsMaxZero (.num 5)) 60000⟩ rfl).1 true).2⟩

/-- C5: within one Poller tick a start failure for one broadcast never aborts
the rest of the tick: whatever results the engine returns, every broadcast in
the list returned by the repository query receives a start call, in list
order. -/
theorem C5_start_failure_isolation (st : SchedulerState) (now : ℤ)
    (allStreams : List StreamRec) (engine : String → Bool)
    (hinit : st.serviceInit = true) :
    (checkScheduledStreams st now allStreams engine).startCalls
      = st.startCalls
        ++ (findScheduledInRange allStreams now (lookAheadInstant now)).map
            (fun s => s.id) := by
  unfold checkScheduledStreams
  rw [if_neg (by simp [hinit])]
  exact pollerStep_foldl_startCalls engine _ st

theorem C5_start_failure_isolation_witness :
    (checkScheduledStreams initializedState 0
        [⟨"C", "scheduled", some 10, none, none⟩,
         ⟨"D", "scheduled", some 20, none, none⟩]
        (fun _ => false)).startCalls = ["C", "D"] :=
  (C5_start_failure_isolation initializedState 0
      [⟨"C", "scheduled", some 10, none, none⟩,
       ⟨"D", "scheduled", some 20, none, none⟩]
      (fun _ => false) rfl).trans (by decide)

/-- C6: on every Poller tick the look-ahead instant equals `now + 60 * 1000`
ms (`SCHEDULE_LOOKAHEAD_SECONDS = 60`), and the repository query range is
inclusive at both ends: a scheduled broadcast due exactly at `now` is
returned, one due exactly at `now + 60` s is returned, and one due one second
beyond the horizon is not. -/
theorem C6_lookahead_inclusive (all : List StreamRec) (now : ℤ) (s : StreamRec)
    (hs : s ∈ all) (hstat : s.status = "scheduled") :
    lookAheadInstant now = now + 60 * 1000 ∧
    (∀ t : ℤ, s.scheduled_time = some t →
      (s ∈ findScheduledInRange all now (lookAheadInstant now)
        ↔ now ≤ t ∧ t ≤ now + 60 * 1000)) ∧
    (s.scheduled_time = some now →
      s ∈ findScheduledInRange all now (lookAheadInstant now)) ∧
    (s.scheduled_time = some (now + 60 * 1000) →
      s ∈ findScheduledInRange all now (lookAheadInstant now)) ∧
    (s.scheduled_time = some (now + 60 * 1000 + 1000) →
      s ∉ findScheduledInRange all now (lookAheadInstant now)) := by
  have hmem : ∀ t : ℤ, s.scheduled_time = some t →
      (s ∈ findScheduledInRange all now (lookAheadInstant now)
        ↔ now ≤ t ∧ t ≤ now + 60 * 1000) := by
    intro t htime
    unfold findScheduledInRange lookAheadInstant SCHEDULE_LOOKAHEAD_SECONDS
    rw [List.mem_filter]
    simp [hs, hstat, htime]
  refine ⟨rfl, hmem, ?_, ?_, ?_⟩
  · intro h
    exact (hmem now h).mpr ⟨le_refl now, by linarith⟩
  · intro h
    exact (hmem _ h).mpr ⟨by linarith, le_refl _⟩
  · intro h hmem2
    have h2 := ((hmem _ h).mp hmem2).2
    linarith

theorem C6_lookahead_inclusive_witness :
    ((⟨"B", "scheduled", some 60000, none, none⟩ : StreamRec)
        ∈ [(⟨"B", "scheduled", some 60000, none, none⟩ : StreamRec)]) ∧
    (⟨"B", "scheduled", some 60000, none, none⟩ : StreamRec)
      ∈ findScheduledInRange
          [⟨"B", "scheduled", some 60000, none, none⟩] 0 (lookAheadInstant 0) :=
  ⟨List.mem_singleton.mpr rfl,
    (C6_lookahead_inclusive [⟨"B", "scheduled", some 60000, none, none⟩] 0
        ⟨"B", "scheduled", some 60000, none, none⟩
        (List.mem_singleton.mpr rfl) rfl).2.2.2.1 (by norm_num)⟩

/-- C9: a live broadcast whose `duration` field is absent is never armed in
the termination registry by the Watchdog and never stopped by it, on any tick
and across any number of ticks. -/
theorem C9_no_duration_never_armed (st : SchedulerState) (q : String)
    (ticks : List (List (StreamRec × ℤ)))
    (hq : ∀ tick ∈ ticks, ∀ p ∈ tick, (p.1).id = q → (p.1).duration = none)
    (h1 : mapHas st.terminations q = false) (h2 : q ∉ st.stopCalls) :
    mapHas (runWatchdogTicks st ticks).terminations q = false ∧
    q ∉ (runWatchdogTicks st ticks).stopCalls := by
  have h := runWatchdog_preserves_other q ticks st hq
  exact ⟨h.1.trans h1, h.2 h2⟩

theorem C9_no_duration_never_armed_witness :
    mapHas (runWatchdogTicks initializedState
        [[(⟨"a", "live", none, some 0, none⟩, 100)],
         [(⟨"a", "live", none, some 0, none⟩, 60100)]]).terminations "a"
      = false ∧
    "a" ∉ (runWatchdogTicks initializedState
        [[(⟨"a", "live", none, some 0, none⟩, 100)],
         [(⟨"a", "live", none, some 0, none⟩, 60100)]]).stopCalls :=
  C9_no_duration_never_armed initializedState "a"
    [[(⟨"a", "live", none, some 0, none⟩, 100)],
     [(⟨"a", "live", none, some 0, none⟩, 60100)]]
    (by decide) rfl (by simp [initializedState])
